import Mathlib

/-!
Verification of the wav2msu codec (`src/docs/index.js`).

The JavaScript module converts between RIFF/WAVE buffers, raw interleaved
16-bit PCM sample sequences, and the MSU-1 container format.  We embed the
byte-level behaviour shallowly:

* an `ArrayBuffer` is a `List Nat` of byte values (each `< 256`; writers
  reduce values mod 256 exactly as `DataView` setters do via `ToUint8` /
  `ToUint16` / `ToUint32`);
* a `Uint16Array` (raw PCM sample sequence) is a `List Nat` of values
  `< 65536`;
* JavaScript exceptions become `Except JsErr`: `WavError` and `MsuError`
  carry their interpolated message data as structured payloads, and the
  `RangeError`s thrown by `DataView` / typed-array constructors and
  accessors on out-of-bounds offsets become `JsErr.range`.

All multi-byte `DataView` reads in the source pass `littleEndian = true`;
the one write that omits the flag (the intro loop of `rawPcmToMsu`) is
embedded big-endian, as `DataView.setUint16` defaults to big-endian.
-/

namespace Wav2Msu

/-- A byte buffer (JS `ArrayBuffer`): a list of byte values. -/
abbrev Buf := List Nat

/-- `view.getUint8(i)` without the bounds check; in-range reads in the
source are always guarded before this is used, so the default 0 is inert. -/
def byteAt (b : Buf) (i : Nat) : Nat := b.getD i 0

/-- The byte sequence `[off, off+len)`; used for `getString`, whose result
in JS is the string of the byte values as character codes. -/
def bytesAt (b : Buf) (off len : Nat) : List Nat :=
  (List.range len).map fun i => byteAt b (off + i)

/-- Little-endian `DataView.getUint16` byte combination. -/
def dec2 (b : Buf) (off : Nat) : Nat :=
  byteAt b off + 256 * byteAt b (off + 1)

/-- Little-endian `DataView.getUint32` byte combination. -/
def dec4 (b : Buf) (off : Nat) : Nat :=
  byteAt b off + 256 * byteAt b (off + 1) + 65536 * byteAt b (off + 2) +
    16777216 * byteAt b (off + 3)

/-- Structured payloads of the `WavError` messages thrown by the source.
Each constructor stands for one `throw new WavError(...)` site and carries
exactly the interpolated values of its message string. -/
inductive WavMsg
  /-- `Not a WAV file; expected RIFF/WAVE, got "<magic>"` -/
  | notWav (magic : List Nat)
  /-- `File size (<actual>) differs from recorded data size (<recorded>); giving up` -/
  | sizeMismatch (actual recorded : Nat)
  /-- `no "fmt" chunk` -/
  | noFmt
  /-- `Format should be PCM (1); got <got>` -/
  | badFormatTag (got : Nat)
  /-- `Expected 2 channels; got <got>` -/
  | badChannels (got : Nat)
  /-- `Expected a rate of 44.1 kHz; got <got/1000> kHz` -/
  | badRate (got : Nat)
  /-- `Expected 16-bit samples, got <got>` -/
  | badBits (got : Nat)
  /-- `no "data" chunk` -/
  | noData
deriving DecidableEq

/-- Structured payloads of the `MsuError` messages thrown by the source. -/
inductive MsuMsg
  /-- `Not an MSU1 file` -/
  | notMsu1
  /-- `Loop point (<loopPoint>) is larger than the number of samples in the
  file (<dataBytes/2>)`: carries the loop point and `byteLength - 8` (the
  message formats the exact quotient `dataBytes / 2`). -/
  | loopTooLarge (loopPoint dataBytes : Nat)
deriving DecidableEq

/-- The exceptions the codec can raise. -/
inductive JsErr
  | wav (m : WavMsg)
  | msu (m : MsuMsg)
  /-- `RangeError` from an out-of-bounds `DataView` / typed-array offset. -/
  | range
deriving DecidableEq

deriving instance DecidableEq for Except

/-- `getString(view, offset, length)`: reads `length` bytes one by one via
`getUint8`, throwing `RangeError` on the first out-of-range offset. -/
def getStringE (b : Buf) (off len : Nat) : Except JsErr (List Nat) :=
  if off + len ≤ b.length then .ok (bytesAt b off len) else .error .range

/-- `view.getUint16(off, true)` with the `DataView` bounds check. -/
def getU16le (b : Buf) (off : Nat) : Except JsErr Nat :=
  if off + 2 ≤ b.length then .ok (dec2 b off) else .error .range

/-- `view.getUint32(off, true)` with the `DataView` bounds check. -/
def getU32le (b : Buf) (off : Nat) : Except JsErr Nat :=
  if off + 4 ≤ b.length then .ok (dec4 b off) else .error .range

/-- Bytes of `setUint16(_, v, true)` (little-endian); `ToUint16` reduces
the stored value mod 2^16, which the `% 256` byte extractions realise. -/
def u16le (v : Nat) : List Nat := [v % 256, v / 256 % 256]

/-- Bytes of `setUint16(_, v)` (big-endian, the `DataView` default). -/
def u16be (v : Nat) : List Nat := [v / 256 % 256, v % 256]

/-- Bytes of `setUint32(_, v, true)`; `ToUint32` reduces mod 2^32. -/
def u32le (v : Nat) : List Nat :=
  [v % 256, v / 256 % 256, v / 65536 % 256, v / 16777216 % 256]

/-- The bytes written by a loop storing each sample little-endian
(`for i: setUint16(base + 2*i, pcm[i], true)`, consecutive offsets). -/
def u16leBytes : List Nat → Buf
  | [] => []
  | v :: t => u16le v ++ u16leBytes t

/-- The bytes written by the intro loop of `rawPcmToMsu`
(`for i: setUint16(8 + 2*i, intro[i])`, big-endian default). -/
def u16beBytes : List Nat → Buf
  | [] => []
  | v :: t => u16be v ++ u16beBytes t

/-- Element `k` of `new Uint16Array(buffer, off, len)` is the host-order
(little-endian) 16-bit value at byte `off + 2*k`; this reads the `len`
elements in order. -/
def readU16s (b : Buf) (off : Nat) : Nat → List Nat
  | 0 => []
  | n + 1 => dec2 b off :: readU16s b (off + 2) n

/-- `new Uint16Array(buffer, byteOffset, length)`: throws `RangeError`
when `byteOffset` is not a multiple of the element size 2 or when
`byteOffset + 2*length` overruns the buffer; otherwise a view whose
elements we materialise eagerly (the source never writes through the
views it returns). -/
def mkU16View (b : Buf) (off len : Nat) : Except JsErr (List Nat) :=
  if off % 2 = 0 ∧ off + 2 * len ≤ b.length then .ok (readU16s b off len)
  else .error .range

/-- ASCII codes of `"MSU1"`. -/
def msu1Name : List Nat := [77, 83, 85, 49]

/-- `rawPcmToMsu(pcm, { intro = null, loop = 0 })`.

The source allocates `8 + (intro?.byteLength ?? 0) + pcm.byteLength`
zeroed bytes and then writes, at disjoint consecutive offsets: the magic
`"MSU1"` at 0, the loop point (overridden to `intro.length / 2` when an
intro is given; `ToUint32` truncates the possibly fractional quotient,
which `Nat` division matches) little-endian at 4, the intro samples
big-endian (missing `littleEndian` flag) from 8, and the loop-body samples
little-endian after the intro.  The concatenation below reproduces those
writes byte for byte. -/
def rawPcmToMsu (pcm : List Nat) (intro : Option (List Nat) := none)
    (loop : Nat := 0) : Buf :=
  let loopVal := match intro with
    | some i => i.length / 2
    | none => loop
  let introBytes := match intro with
    | some i => u16beBytes i
    | none => []
  msu1Name ++ u32le loopVal ++ introBytes ++ u16leBytes pcm

/-- The result record of `msuToRawPcm` (JSDoc typedef `RawLoopedPCM`).
`none` fields model JS `undefined`: the split branch of the source returns
an object literal without a `loopPoint` property, and the packed branch
one without an `intro` property. -/
structure RawLoopedPCM where
  intro : Option (List Nat)
  loop : List Nat
  loopPoint : Option Nat
deriving DecidableEq

/-- `msuToRawPcm(msuBuffer, { packLoop })`.

Faithful to the source line by line.  The JS comparison
`loopPoint > (byteLength - 8) / 2` uses exact (rational) division; over
integers it is equivalent to `2 * loopPoint > byteLength - 8`, which is
how we state it in `Nat`.  In the split branch the loop view length
`(byteLength - 8) / 2 - loopPoint * 2` passes through `ToIndex`, which
truncates toward zero and throws `RangeError` for values `≤ -1`; with
`d := byteLength - 8` that error condition is `d + 2 ≤ 4 * loopPoint`,
and otherwise the truncated length is `d / 2 - loopPoint * 2` in `Nat`. -/
def msuToRawPcm (b : Buf) (packLoop : Bool := false) :
    Except JsErr RawLoopedPCM :=
  match getStringE b 0 4 with
  | .error e => .error e
  | .ok magic =>
    if magic ≠ msu1Name then .error (.msu .notMsu1)
    else
      match getU32le b 4 with
      | .error e => .error e
      | .ok loopPoint =>
        if 2 * loopPoint > b.length - 8 then
          .error (.msu (.loopTooLarge loopPoint (b.length - 8)))
        else if loopPoint = 0 ∨ packLoop then
          match mkU16View b 8 ((b.length - 8) / 2) with
          | .error e => .error e
          | .ok loop => .ok ⟨none, loop, some loopPoint⟩
        else
          match mkU16View b 8 loopPoint with
          | .error e => .error e
          | .ok intro =>
            if b.length - 8 + 2 ≤ 4 * loopPoint then .error .range
            else
              match mkU16View b (8 + loopPoint * 4)
                  ((b.length - 8) / 2 - loopPoint * 2) with
              | .error e => .error e
              | .ok loop => .ok ⟨some intro, loop, none⟩

/-- ASCII codes of `"RIFF"`. -/
def riffName : List Nat := [82, 73, 70, 70]

/-- ASCII codes of `"WAVE"`. -/
def waveName : List Nat := [87, 65, 86, 69]

/-- ASCII codes of `"RIFF/WAVE"`, the string the joined magic is compared
against. -/
def riffWaveName : List Nat := [82, 73, 70, 70, 47, 87, 65, 86, 69]

/-- ASCII codes of `"fmt"` (the `"fmt "` chunk name after trimming). -/
def fmtName : List Nat := [102, 109, 116]

/-- ASCII codes of `"data"`. -/
def dataName : List Nat := [100, 97, 116, 97]

/-- The JS whitespace characters `String.prototype.trim` strips, restricted
to char codes `< 256` (chunk-name characters come from single bytes). -/
def isJsSpace (c : Nat) : Bool :=
  c == 9 || c == 10 || c == 11 || c == 12 || c == 13 || c == 32 || c == 160

/-- `chunkName.trim().replace(/\0/g, '')`: strip whitespace from both ends,
then delete every NUL. -/
def chunkKey (nm : List Nat) : List Nat :=
  (((nm.dropWhile isJsSpace).reverse.dropWhile isJsSpace).reverse).filter
    (fun c => c ≠ 0)

/-- A `DataView(buffer, off, len)` chunk-body view: a byte range into the
parsed buffer. -/
structure DView where
  off : Nat
  len : Nat
deriving DecidableEq

/-- `new DataView(buffer, off, len)`: throws `RangeError` when the window
overruns the buffer. -/
def mkDView (b : Buf) (off len : Nat) : Except JsErr DView :=
  if off + len ≤ b.length then .ok ⟨off, len⟩ else .error .range

/-- The chunk record built by `parseWavFile`, in insertion order.  JS
object assignment `chunks[name] = view` lets the last same-named chunk
win, which `lookupChunk` reproduces. -/
abbrev ChunkList := List (List Nat × DView)

/-- Property lookup on the chunk record: the last assignment to a name
wins. -/
def lookupChunk (k : List Nat) : ChunkList → Option DView
  | [] => none
  | (k', v) :: t =>
    match lookupChunk k t with
    | some r => some r
    | none => if k' = k then some v else none

/-- The chunk-walking loop of `parseWavFile`: from `pos`, while
`pos < byteLength`, read a 4-byte name, a little-endian `uint32` body
length at `pos + 4`, build the body view `[pos+8, pos+8+length)`, and
advance by `length + 8`. -/
def walkChunks (b : Buf) (pos : Nat) : Except JsErr ChunkList :=
  if hpos : pos < b.length then
    match getStringE b pos 4 with
    | .error e => .error e
    | .ok nm =>
      match getU32le b (pos + 4) with
      | .error e => .error e
      | .ok len =>
        match mkDView b (pos + 8) len with
        | .error e => .error e
        | .ok dv =>
          match walkChunks b (pos + (len + 8)) with
          | .error e => .error e
          | .ok rest => .ok ((chunkKey nm, dv) :: rest)
  else .ok []
termination_by b.length - pos
decreasing_by omega

/-- `parseWavFile(wavBuffer)`: check the `"RIFF"`/`"WAVE"` magics joined
with `'/'`, check `getUint32(4, true) + 8` against the buffer length,
then walk the chunks from offset 12. -/
def parseWavFile (b : Buf) : Except JsErr ChunkList :=
  match getStringE b 0 4 with
  | .error e => .error e
  | .ok s1 =>
    match getStringE b 8 4 with
    | .error e => .error e
    | .ok s2 =>
      let magic := s1 ++ [47] ++ s2
      if magic ≠ riffWaveName then .error (.wav (.notWav magic))
      else
        match getU32le b 4 with
        | .error e => .error e
        | .ok sz =>
          if sz + 8 ≠ b.length then
            .error (.wav (.sizeMismatch b.length (sz + 8)))
          else walkChunks b 12

/-- The decoded `fmt` chunk. -/
structure Fmt where
  formatTag : Nat
  channels : Nat
  samplesPerSec : Nat
  avgBytesPerSec : Nat
  blockAlign : Nat
  bitsPerSample : Nat
deriving DecidableEq

/-- `view.getUint16(rel, true)` on a chunk `DataView`: offsets are
relative to the view and bounds-checked against its length. -/
def dvGetU16 (b : Buf) (dv : DView) (rel : Nat) : Except JsErr Nat :=
  if rel + 2 ≤ dv.len then .ok (dec2 b (dv.off + rel)) else .error .range

/-- `view.getUint32(rel, true)` on a chunk `DataView`. -/
def dvGetU32 (b : Buf) (dv : DView) (rel : Nat) : Except JsErr Nat :=
  if rel + 4 ≤ dv.len then .ok (dec4 b (dv.off + rel)) else .error .range

/-- `parseFMT(view)`: decode the six fields of the `fmt` chunk body, in
the evaluation order of the JS object literal. -/
def parseFMT (b : Buf) (dv : DView) : Except JsErr Fmt :=
  match dvGetU16 b dv 0 with
  | .error e => .error e
  | .ok formatTag =>
    match dvGetU16 b dv 2 with
    | .error e => .error e
    | .ok channels =>
      match dvGetU32 b dv 4 with
      | .error e => .error e
      | .ok samplesPerSec =>
        match dvGetU32 b dv 8 with
        | .error e => .error e
        | .ok avgBytesPerSec =>
          match dvGetU16 b dv 12 with
          | .error e => .error e
          | .ok blockAlign =>
            match dvGetU16 b dv 14 with
            | .error e => .error e
            | .ok bitsPerSample =>
              .ok ⟨formatTag, channels, samplesPerSec, avgBytesPerSec,
                blockAlign, bitsPerSample⟩

/-- `wavBufferToRawPcm(wavBuffer)`: parse the chunks, require and validate
the `fmt` chunk (PCM, stereo, 44100 Hz, 16-bit), require the `data`
chunk, and return the `Uint16Array` view over its bytes with
`byteLength * 8 / bitsPerSample` elements (`ToIndex` truncation matches
`Nat` division). -/
def wavBufferToRawPcm (b : Buf) : Except JsErr (List Nat) :=
  match parseWavFile b with
  | .error e => .error e
  | .ok chunks =>
    match lookupChunk fmtName chunks with
    | none => .error (.wav .noFmt)
    | some fmtDv =>
      match parseFMT b fmtDv with
      | .error e => .error e
      | .ok f =>
        if f.formatTag ≠ 1 then .error (.wav (.badFormatTag f.formatTag))
        else if f.channels ≠ 2 then .error (.wav (.badChannels f.channels))
        else if f.samplesPerSec ≠ 44100 then
          .error (.wav (.badRate f.samplesPerSec))
        else if f.bitsPerSample ≠ 16 then
          .error (.wav (.badBits f.bitsPerSample))
        else
          match lookupChunk dataName chunks with
          | none => .error (.wav .noData)
          | some dataDv =>
            mkU16View b dataDv.off (dataDv.len * 8 / f.bitsPerSample)

/-- `rawPcmToWav(pcm)`: the fixed 44-byte canonical header followed by the
samples written little-endian.  The source allocates
`44 + pcm.byteLength` zeroed bytes and fills them at consecutive offsets;
the `try`/`catch` around the sample writes can never fire because every
offset is in range, so the construction is pure.  `44100 * 16 * 2 / 8` is
the source's data-rate expression. -/
def rawPcmToWav (pcm : List Nat) : Buf :=
  let size := 44 + 2 * pcm.length
  riffName ++ u32le (size - 8) ++ waveName ++
    [102, 109, 116, 32] ++ u32le 16 ++
    u16le 1 ++ u16le 2 ++ u32le 44100 ++ u32le (44100 * 16 * 2 / 8) ++
    u16le 4 ++ u16le 16 ++
    dataName ++ u32le (2 * pcm.length) ++ u16leBytes pcm

/-- Proof-layer helper: the 44 header bytes of `rawPcmToWav` for a PCM
sequence of `n` sample values, flattened into one explicit list
(`rawPcmToWav_decomp` shows it matches the encoder). -/
def wavHdrBytes (n : Nat) : Buf :=
  [82, 73, 70, 70,
    (44 + 2 * n - 8) % 256, (44 + 2 * n - 8) / 256 % 256,
    (44 + 2 * n - 8) / 65536 % 256, (44 + 2 * n - 8) / 16777216 % 256,
    87, 65, 86, 69, 102, 109, 116, 32,
    16, 0, 0, 0, 1, 0, 2, 0,
    68, 172, 0, 0, 16, 177, 2, 0,
    4, 0, 16, 0, 100, 97, 116, 97,
    2 * n % 256, 2 * n / 256 % 256, 2 * n / 65536 % 256,
    2 * n / 16777216 % 256]

/-! ### Auxiliary lemmas about the byte-level primitives -/

theorem byteAt_append_left (pre t : Buf) (i : Nat) (h : i < pre.length) :
    byteAt (pre ++ t) i = byteAt pre i :=
  List.getD_append pre t 0 i h

theorem byteAt_append_right (pre t : Buf) (i : Nat) (h : pre.length ≤ i) :
    byteAt (pre ++ t) i = byteAt t (i - pre.length) :=
  List.getD_append_right pre t 0 i h

theorem byteAt_drop (b : Buf) (off i : Nat) (h : off ≤ b.length) :
    byteAt b (off + i) = byteAt (b.drop off) i := by
  have hlen : (b.take off).length = off := by
    rw [List.length_take]; omega
  have := byteAt_append_right (b.take off) (b.drop off) (off + i) (by omega)
  rw [List.take_append_drop] at this
  rw [this, hlen]
  congr 1
  omega

theorem u16leBytes_length (l : List Nat) :
    (u16leBytes l).length = 2 * l.length := by
  induction l with
  | nil => rfl
  | cons v t ih => simp [u16leBytes, u16le, ih]; omega

theorem u16beBytes_length (l : List Nat) :
    (u16beBytes l).length = 2 * l.length := by
  induction l with
  | nil => rfl
  | cons v t ih => simp [u16beBytes, u16be, ih]; omega

theorem dec2_append_right (pre t : Buf) (k : Nat) :
    dec2 (pre ++ t) (pre.length + k) = dec2 t k := by
  unfold dec2
  rw [byteAt_append_right pre t _ (by omega),
    byteAt_append_right pre t _ (by omega)]
  rw [show pre.length + k - pre.length = k from by omega,
    show pre.length + k + 1 - pre.length = k + 1 from by omega]

theorem readU16s_append_right (pre t : Buf) :
    ∀ (n k : Nat), readU16s (pre ++ t) (pre.length + k) n = readU16s t k n
  | 0, _ => rfl
  | n + 1, k => by
    simp only [readU16s]
    rw [dec2_append_right]
    rw [show pre.length + k + 2 = pre.length + (k + 2) from by omega]
    rw [readU16s_append_right pre t n (k + 2)]

theorem readU16s_drop (b : Buf) (off n : Nat) (h : off ≤ b.length) :
    readU16s b off n = readU16s (b.drop off) 0 n := by
  have hlen : (b.take off).length = off := by
    rw [List.length_take]; omega
  have happ := readU16s_append_right (b.take off) (b.drop off) n 0
  rw [List.take_append_drop, hlen, Nat.add_zero] at happ
  exact happ

theorem readU16s_u16leBytes (p : List Nat) (hv : ∀ v ∈ p, v < 65536) :
    readU16s (u16leBytes p) 0 p.length = p := by
  induction p with
  | nil => rfl
  | cons v t ih =>
    have hvv : v < 65536 := hv v (List.mem_cons_self _ _)
    have hv' : ∀ x ∈ t, x < 65536 := fun x hx => hv x (List.mem_cons_of_mem _ hx)
    show dec2 (u16le v ++ u16leBytes t) 0 ::
        readU16s (u16le v ++ u16leBytes t) (0 + 2) t.length = v :: t
    have h1 : dec2 (u16le v ++ u16leBytes t) 0 = v := by
      unfold dec2 byteAt u16le
      simp only [List.cons_append, List.getD_cons_zero, List.getD_cons_succ]
      omega
    have h2 : readU16s (u16le v ++ u16leBytes t) (0 + 2) t.length = t := by
      have happ := readU16s_append_right (u16le v) (u16leBytes t) t.length 0
      rw [show (u16le v).length = 2 from rfl] at happ
      rw [show (0 : Nat) + 2 = 2 + 0 from by omega]
      rw [happ]
      exact ih hv'
    rw [h1, h2]

theorem u16beBytes_byte_lo (l : List Nat) :
    ∀ (i : Nat), i < l.length →
      byteAt (u16beBytes l) (2 * i) = l.getD i 0 / 256 % 256 := by
  induction l with
  | nil => intro i h; simp at h
  | cons v t ih =>
    intro i h
    match i with
    | 0 => rfl
    | j + 1 =>
      show byteAt (u16be v ++ u16beBytes t) (2 * (j + 1)) = _
      rw [show 2 * (j + 1) = (u16be v).length + 2 * j from by simp [u16be]; omega]
      rw [byteAt_append_right _ _ _ (by omega)]
      rw [show (u16be v).length + 2 * j - (u16be v).length = 2 * j from by omega]
      simpa using ih j (by simpa using h)

theorem u16beBytes_byte_hi (l : List Nat) :
    ∀ (i : Nat), i < l.length →
      byteAt (u16beBytes l) (2 * i + 1) = l.getD i 0 % 256 := by
  induction l with
  | nil => intro i h; simp at h
  | cons v t ih =>
    intro i h
    match i with
    | 0 => rfl
    | j + 1 =>
      show byteAt (u16be v ++ u16beBytes t) (2 * (j + 1) + 1) = _
      rw [show 2 * (j + 1) + 1 = (u16be v).length + (2 * j + 1) from by
        simp [u16be]; omega]
      rw [byteAt_append_right _ _ _ (by omega)]
      rw [show (u16be v).length + (2 * j + 1) - (u16be v).length = 2 * j + 1 from by
        omega]
      simpa using ih j (by simpa using h)

theorem u16leBytes_byte_lo (l : List Nat) :
    ∀ (i : Nat), i < l.length →
      byteAt (u16leBytes l) (2 * i) = l.getD i 0 % 256 := by
  induction l with
  | nil => intro i h; simp at h
  | cons v t ih =>
    intro i h
    match i with
    | 0 => rfl
    | j + 1 =>
      show byteAt (u16le v ++ u16leBytes t) (2 * (j + 1)) = _
      rw [show 2 * (j + 1) = (u16le v).length + 2 * j from by simp [u16le]; omega]
      rw [byteAt_append_right _ _ _ (by omega)]
      rw [show (u16le v).length + 2 * j - (u16le v).length = 2 * j from by omega]
      simpa using ih j (by simpa using h)

theorem rawPcmToWav_decomp (p : List Nat) :
    rawPcmToWav p = wavHdrBytes p.length ++ u16leBytes p := by
  simp [rawPcmToWav, wavHdrBytes, u32le, u16le, riffName, waveName, dataName]

theorem u16leBytes_byte_hi (l : List Nat) :
    ∀ (i : Nat), i < l.length →
      byteAt (u16leBytes l) (2 * i + 1) = l.getD i 0 / 256 % 256 := by
  induction l with
  | nil => intro i h; simp at h
  | cons v t ih =>
    intro i h
    match i with
    | 0 => rfl
    | j + 1 =>
      show byteAt (u16le v ++ u16leBytes t) (2 * (j + 1) + 1) = _
      rw [show 2 * (j + 1) + 1 = (u16le v).length + (2 * j + 1) from by
        simp [u16le]; omega]
      rw [byteAt_append_right _ _ _ (by omega)]
      rw [show (u16le v).length + (2 * j + 1) - (u16le v).length = 2 * j + 1 from by
        omega]
      simpa using ih j (by simpa using h)

end Wav2Msu

namespace Wav2Msu

/-- C8: `rawPcmToMsu([10,20,30,40], {loop: 1})` is exactly the 16 bytes
`"MSU1"`, `01 00 00 00`, `0A 00 14 00 1E 00 28 00`. -/
theorem c8_concrete_msu :
    rawPcmToMsu [10, 20, 30, 40] none 1 =
      [77, 83, 85, 49, 1, 0, 0, 0, 10, 0, 20, 0, 30, 0, 40, 0] := by
  decide

/-- C2: for a raw PCM sequence `p` (16-bit sample values) and a loop index
`n` with `0 ≤ n ≤ p.length / 2` (and `n` representable in the format's
uint32 loop-point field), `msuToRawPcm(rawPcmToMsu(p, {loop: n}),
{packLoop: true})` succeeds with a `loop` field element-wise equal to `p`
and a `loopPoint` field equal to `n`. -/
theorem c2_msu_packloop_roundtrip (p : List Nat) (n : Nat)
    (hv : ∀ v ∈ p, v < 65536) (hn : 2 * n ≤ p.length)
    (hn32 : n < 4294967296) :
    msuToRawPcm (rawPcmToMsu p none n) true = .ok ⟨none, p, some n⟩ := by
  have hblen : (rawPcmToMsu p none n).length = 8 + 2 * p.length := by
    simp [rawPcmToMsu, msu1Name, u32le, u16leBytes_length]
    omega
  have hbytes : bytesAt (rawPcmToMsu p none n) 0 4 = msu1Name := rfl
  have hstr : getStringE (rawPcmToMsu p none n) 0 4 = .ok msu1Name := by
    unfold getStringE
    rw [if_pos (by omega), hbytes]
  have hb4 : byteAt (rawPcmToMsu p none n) 4 = n % 256 := rfl
  have hb5 : byteAt (rawPcmToMsu p none n) 5 = n / 256 % 256 := rfl
  have hb6 : byteAt (rawPcmToMsu p none n) 6 = n / 65536 % 256 := rfl
  have hb7 : byteAt (rawPcmToMsu p none n) 7 = n / 16777216 % 256 := rfl
  have hdec : dec4 (rawPcmToMsu p none n) 4 = n := by
    unfold dec4
    rw [show (4 : Nat) + 1 = 5 from rfl, show (4 : Nat) + 2 = 6 from rfl,
      show (4 : Nat) + 3 = 7 from rfl, hb4, hb5, hb6, hb7]
    omega
  have hu32 : getU32le (rawPcmToMsu p none n) 4 = .ok n := by
    unfold getU32le
    rw [if_pos (by omega), hdec]
  have hdrop : (rawPcmToMsu p none n).drop 8 = u16leBytes p := rfl
  have hread : readU16s (rawPcmToMsu p none n) 8 p.length = p := by
    rw [readU16s_drop _ _ _ (by omega), hdrop, readU16s_u16leBytes p hv]
  have hview : mkU16View (rawPcmToMsu p none n) 8
      (((rawPcmToMsu p none n).length - 8) / 2) = .ok p := by
    unfold mkU16View
    rw [if_pos ⟨by omega, by omega⟩]
    rw [show ((rawPcmToMsu p none n).length - 8) / 2 = p.length from by omega]
    rw [hread]
  have hgt : ¬ (2 * n > (rawPcmToMsu p none n).length - 8) := by
    rw [hblen]; omega
  simp [msuToRawPcm, hstr, hu32, hgt, hview]

/-- Witness for C2 at `p = [1, 2, 3, 4]`, `n = 1`. -/
theorem c2_msu_packloop_roundtrip_witness :
    (∀ v ∈ [1, 2, 3, 4], v < 65536) ∧ 2 * 1 ≤ 4 ∧
      msuToRawPcm (rawPcmToMsu [1, 2, 3, 4] none 1) true =
        .ok ⟨none, [1, 2, 3, 4], some 1⟩ :=
  ⟨by decide, by decide,
    c2_msu_packloop_roundtrip [1, 2, 3, 4] 1 (by decide) (by decide) (by decide)⟩

/-- C3 (code bug, evaluation at the failing input): serializing
`intro = [10, 20]`, `loop = [30, 40]` with `rawPcmToMsu(loop, { intro })`
and parsing the result back without `packLoop` does NOT restore the
inputs.  The claim (spec §8.3) expects
`{ intro: [10, 20], loop: [30, 40], loopPoint: 1 }`; the code instead
yields `intro = [2560]` — only `loopPoint` sample values (not
`loopPoint * 2`) are put in the intro view, and the intro was written
big-endian (`setUint16` without the little-endian flag) but is read back
little-endian, so `10 = 0x000A` comes back as `0x0A00 = 2560` — and the
split branch's object literal returns no `loopPoint` property at all.
The `loop` field does round-trip. -/
theorem c3_intro_split_eval :
    msuToRawPcm (rawPcmToMsu [30, 40] (some [10, 20]) 0) false =
      .ok ⟨some [2560], [30, 40], none⟩ := by
  decide

/-- C4 (code bug, evaluation at the failing input): on the 16-byte MSU-1
buffer with loop point `L = 1` and data bytes `1..8`, the split branch of
`msuToRawPcm` returns `intro` with `L` sample values (`[513]`, bytes
8..9) instead of the first `L * 2` sample values (`[513, 1027]`, the
`L * 4` intro bytes implied by the loop view starting at `8 + L * 4`),
and returns no `loopPoint` field.  The `loop` field does hold the
remaining samples from byte `8 + L * 4 = 12` to the end, as claimed. -/
theorem c4_msu_split_eval :
    msuToRawPcm [77, 83, 85, 49, 1, 0, 0, 0, 1, 2, 3, 4, 5, 6, 7, 8]
        false =
      .ok ⟨some [513], [1541, 2055], none⟩ := by
  decide

/-- Counterexample to C5 as stated: the 16-byte buffer with correct magic
and loop point `L = 3` violates the claimed bound `L * 2 ≤ (16 - 8) / 2`,
yet `msuToRawPcm` (with `packLoop`) returns successfully instead of
raising an MSU-format error: the source compares the frame index against
the uint16 sample count `(byteLength - 8) / 2`, not against the frame
count. -/
theorem c5_loop_bound_counterexample :
    msuToRawPcm [77, 83, 85, 49, 3, 0, 0, 0, 1, 0, 2, 0, 3, 0, 4, 0]
        true =
      .ok ⟨none, [1, 2, 3, 4], some 3⟩ ∧ ¬ (3 * 2 ≤ (16 - 8) / 2) := by
  decide

/-- C5 (amended): `msuToRawPcm` returns successfully only on buffers whose
loop-point field `L` satisfies `L ≤ (byteLength - 8) / 2` — the uint16
sample count, not the frame count (over integers: `2 * L ≤ byteLength -
8`) — and any buffer of at least 8 bytes with correct magic whose `L`
exceeds that bound raises an MSU-format error citing both values. -/
theorem c5_loop_bound_amended :
    (∀ (b : Buf) (pl : Bool) (r : RawLoopedPCM),
        msuToRawPcm b pl = .ok r → 2 * dec4 b 4 ≤ b.length - 8) ∧
      (∀ (b : Buf) (pl : Bool), bytesAt b 0 4 = msu1Name → 8 ≤ b.length →
        2 * dec4 b 4 > b.length - 8 →
        msuToRawPcm b pl =
          .error (.msu (.loopTooLarge (dec4 b 4) (b.length - 8)))) := by
  constructor
  · intro b pl r h
    unfold msuToRawPcm at h
    split at h
    · cases h
    · split at h
      · cases h
      · split at h
        · cases h
        · rename_i magic hmagic L hL
          split at h
          · cases h
          · rename_i hgt
            unfold getU32le at hL
            split at hL
            · rw [Except.ok.injEq] at hL
              omega
            · cases hL
  · intro b pl hmagic hlen hgt
    have hs : getStringE b 0 4 = .ok msu1Name := by
      unfold getStringE
      rw [if_pos (by omega), hmagic]
    have hu : getU32le b 4 = .ok (dec4 b 4) := by
      unfold getU32le
      rw [if_pos (by omega)]
    simp [msuToRawPcm, hs, hu, hgt]

/-- Witness for C5: a successful parse (`L = 0` on an 8-byte buffer)
satisfies the bound, and an 8-byte buffer with `L = 5 > 0` raises the
MSU-format error with both values. -/
theorem c5_loop_bound_witness :
    2 * dec4 [77, 83, 85, 49, 0, 0, 0, 0] 4 ≤
        ([77, 83, 85, 49, 0, 0, 0, 0] : Buf).length - 8 ∧
      msuToRawPcm [77, 83, 85, 49, 5, 0, 0, 0] false =
        .error (.msu (.loopTooLarge 5 0)) := by
  constructor
  · exact c5_loop_bound_amended.1 [77, 83, 85, 49, 0, 0, 0, 0] false
      ⟨none, [], some 0⟩ (by decide)
  · have h := c5_loop_bound_amended.2 [77, 83, 85, 49, 5, 0, 0, 0] false
      (by decide) (by decide) (by decide)
    have e1 : dec4 [77, 83, 85, 49, 5, 0, 0, 0] 4 = 5 := by decide
    have e2 : ([77, 83, 85, 49, 5, 0, 0, 0] : Buf).length - 8 = 0 := by decide
    rw [e1, e2] at h
    exact h

/-- C7: `msuToRawPcm` raises an MSU-format error on any buffer whose first
four bytes are not `"MSU1"` (for example magic `"MSU0"`), and on any
16-byte buffer with correct magic whose loop-point field is 1,000,000
(the error cites the loop point and the sample count `8`). -/
theorem c7_msu_validation :
    (∀ (b : Buf) (pl : Bool), 4 ≤ b.length → bytesAt b 0 4 ≠ msu1Name →
        msuToRawPcm b pl = .error (.msu .notMsu1)) ∧
      (∀ (b : Buf) (pl : Bool), b.length = 16 → bytesAt b 0 4 = msu1Name →
        dec4 b 4 = 1000000 →
        msuToRawPcm b pl = .error (.msu (.loopTooLarge 1000000 8))) := by
  constructor
  · intro b pl hlen hne
    have hs : getStringE b 0 4 = .ok (bytesAt b 0 4) := by
      unfold getStringE
      rw [if_pos (by omega)]
    simp [msuToRawPcm, hs, hne]
  · intro b pl hlen hmagic hL
    have hs : getStringE b 0 4 = .ok msu1Name := by
      unfold getStringE
      rw [if_pos (by omega), hmagic]
    have hu : getU32le b 4 = .ok 1000000 := by
      unfold getU32le
      rw [if_pos (by omega), hL]
    have hgt : 2 * 1000000 > b.length - 8 := by omega
    have h8 : b.length - 8 = 8 := by omega
    simp [msuToRawPcm, hs, hu, hgt, h8]

/-- Witness for C7: the 4-byte buffer `"MSU0"` and a 16-byte buffer with
loop-point field 1,000,000 (bytes `40 42 0F 00` little-endian). -/
theorem c7_msu_validation_witness :
    msuToRawPcm [77, 83, 85, 48] false = .error (.msu .notMsu1) ∧
      msuToRawPcm
          [77, 83, 85, 49, 64, 66, 15, 0, 0, 0, 0, 0, 0, 0, 0, 0] false =
        .error (.msu (.loopTooLarge 1000000 8)) :=
  ⟨c7_msu_validation.1 [77, 83, 85, 48] false (by decide) (by decide),
    c7_msu_validation.2
      [77, 83, 85, 49, 64, 66, 15, 0, 0, 0, 0, 0, 0, 0, 0, 0] false
      (by decide) (by decide) (by decide)⟩

/-- C9: in `rawPcmToMsu` with a non-empty intro, each intro sample is
stored big-endian — byte `8 + 2*i` is the high byte `intro[i] >> 8` and
byte `8 + 2*i + 1` the low byte `intro[i] mod 256` — whereas each
loop-body sample is stored little-endian (low byte first) at its position
after the intro. -/
theorem c9_intro_byteorder (intr pcm : List Nat) (lp : Nat)
    (hne : intr ≠ []) :
    (∀ i, i < intr.length → intr.getD i 0 < 65536 →
      byteAt (rawPcmToMsu pcm (some intr) lp) (8 + 2 * i) =
          intr.getD i 0 / 256 ∧
        byteAt (rawPcmToMsu pcm (some intr) lp) (8 + 2 * i + 1) =
          intr.getD i 0 % 256) ∧
      (∀ j, j < pcm.length → pcm.getD j 0 < 65536 →
        byteAt (rawPcmToMsu pcm (some intr) lp)
            (8 + 2 * intr.length + 2 * j) = pcm.getD j 0 % 256 ∧
          byteAt (rawPcmToMsu pcm (some intr) lp)
            (8 + 2 * intr.length + 2 * j + 1) = pcm.getD j 0 / 256) := by
  have hblen : (rawPcmToMsu pcm (some intr) lp).length =
      8 + 2 * intr.length + 2 * pcm.length := by
    simp [rawPcmToMsu, msu1Name, u32le, u16beBytes_length, u16leBytes_length]
    omega
  have hdrop : (rawPcmToMsu pcm (some intr) lp).drop 8 =
      u16beBytes intr ++ u16leBytes pcm := rfl
  constructor
  · intro i hi hv
    have hlo := byteAt_drop (rawPcmToMsu pcm (some intr) lp) 8 (2 * i)
      (by omega)
    have hhi := byteAt_drop (rawPcmToMsu pcm (some intr) lp) 8 (2 * i + 1)
      (by omega)
    rw [hdrop] at hlo hhi
    rw [byteAt_append_left _ _ _ (by rw [u16beBytes_length]; omega)] at hlo
    rw [byteAt_append_left _ _ _ (by rw [u16beBytes_length]; omega)] at hhi
    rw [u16beBytes_byte_lo intr i hi] at hlo
    rw [u16beBytes_byte_hi intr i hi] at hhi
    constructor
    · rw [hlo]
      omega
    · rw [show 8 + 2 * i + 1 = 8 + (2 * i + 1) from by omega]
      rw [hhi]
  · intro j hj hv
    have hlo := byteAt_drop (rawPcmToMsu pcm (some intr) lp) 8
      (2 * intr.length + 2 * j) (by omega)
    have hhi := byteAt_drop (rawPcmToMsu pcm (some intr) lp) 8
      (2 * intr.length + 2 * j + 1) (by omega)
    rw [hdrop] at hlo hhi
    rw [byteAt_append_right _ _ _ (by rw [u16beBytes_length]; omega)] at hlo hhi
    rw [u16beBytes_length] at hlo hhi
    rw [show 2 * intr.length + 2 * j - 2 * intr.length = 2 * j from by omega]
      at hlo
    rw [show 2 * intr.length + 2 * j + 1 - 2 * intr.length = 2 * j + 1 from by
      omega] at hhi
    rw [u16leBytes_byte_lo pcm j hj] at hlo
    rw [u16leBytes_byte_hi pcm j hj] at hhi
    constructor
    · rw [show 8 + 2 * intr.length + 2 * j = 8 + (2 * intr.length + 2 * j) from
        by omega]
      rw [hlo]
    · rw [show 8 + 2 * intr.length + 2 * j + 1 =
        8 + (2 * intr.length + 2 * j + 1) from by omega]
      rw [hhi]
      omega

/-- Witness for C9 at `intro = [300]`, `pcm = [40000]`, `loop = 7`:
`300 = 0x012C` is stored as bytes `01 2C` (big-endian) and
`40000 = 0x9C40` as bytes `40 9C` (little-endian). -/
theorem c9_intro_byteorder_witness :
    byteAt (rawPcmToMsu [40000] (some [300]) 7) 8 = 1 ∧
      byteAt (rawPcmToMsu [40000] (some [300]) 7) 9 = 44 ∧
      byteAt (rawPcmToMsu [40000] (some [300]) 7) 10 = 64 ∧
      byteAt (rawPcmToMsu [40000] (some [300]) 7) 11 = 156 := by
  have h := c9_intro_byteorder [300] [40000] 7 (by decide)
  have h1 := h.1 0 (by decide) (by decide)
  have h2 := h.2 0 (by decide) (by decide)
  refine ⟨?_, ?_, ?_, ?_⟩
  · have := h1.1
    norm_num at this
    convert this using 2
  · have := h1.2
    norm_num at this ⊢
    convert this using 2
  · have := h2.1
    norm_num at this ⊢
    convert this using 2
  · have := h2.2
    norm_num at this ⊢
    convert this using 2

/-- Counterexample to C6 as stated: a 4-byte buffer whose bytes 0-3 are
not `"RIFF"` does not raise a WAVE-format error — reading the second
magic at offset 8 throws a `RangeError` first (`getString`'s `getUint8`
runs out of bounds before the magic comparison), the out-of-range outcome
spec §7 leaves unwrapped. -/
theorem c6_wav_errors_counterexample :
    bytesAt [65, 66, 67, 68] 0 4 ≠ riffName ∧
      wavBufferToRawPcm [65, 66, 67, 68] = .error .range := by
  decide

/-- C6 (amended): for buffers of at least 12 bytes (so that the two magic
reads and the size read are in bounds): one whose bytes 0-3 are not
`"RIFF"` raises the WAVE-format magic error, one whose recorded size
field plus 8 differs from the buffer length raises a WAVE-format error,
and one that parses with a `fmt` chunk declaring PCM but 1 channel raises
the WAVE-format channels error citing expected 2 (fixed in its message)
and actual 1. -/
theorem c6_wav_errors_amended :
    (∀ (b : Buf), 12 ≤ b.length → bytesAt b 0 4 ≠ riffName →
        wavBufferToRawPcm b =
          .error (.wav (.notWav (bytesAt b 0 4 ++ [47] ++ bytesAt b 8 4)))) ∧
      (∀ (b : Buf), 12 ≤ b.length → dec4 b 4 + 8 ≠ b.length →
        ∃ m, wavBufferToRawPcm b = .error (.wav m)) ∧
      (∀ (b : Buf) (cs : ChunkList) (dv : DView) (f : Fmt),
        parseWavFile b = .ok cs → lookupChunk fmtName cs = some dv →
        parseFMT b dv = .ok f → f.formatTag = 1 → f.channels = 1 →
        wavBufferToRawPcm b = .error (.wav (.badChannels 1))) := by
  refine ⟨?_, ?_, ?_⟩
  · intro b hlen hne
    have hs0 : getStringE b 0 4 = .ok (bytesAt b 0 4) := by
      unfold getStringE
      rw [if_pos (by omega)]
    have hs8 : getStringE b 8 4 = .ok (bytesAt b 8 4) := by
      unfold getStringE
      rw [if_pos (by omega)]
    have hmag : bytesAt b 0 4 ++ [47] ++ bytesAt b 8 4 ≠ riffWaveName := by
      intro he
      apply hne
      have hl0 : (bytesAt b 0 4).length = 4 := by simp [bytesAt]
      have := congrArg (List.take 4) he
      rw [List.append_assoc, List.take_left' hl0] at this
      rw [this]
      rfl
    have hmag' : ¬ (bytesAt b 0 4 ++ 47 :: bytesAt b 8 4 = riffWaveName) := by
      simpa using hmag
    simp [wavBufferToRawPcm, parseWavFile, hs0, hs8, hmag']
  · intro b hlen hsz
    have hs0 : getStringE b 0 4 = .ok (bytesAt b 0 4) := by
      unfold getStringE
      rw [if_pos (by omega)]
    have hs8 : getStringE b 8 4 = .ok (bytesAt b 8 4) := by
      unfold getStringE
      rw [if_pos (by omega)]
    have hu : getU32le b 4 = .ok (dec4 b 4) := by
      unfold getU32le
      rw [if_pos (by omega)]
    by_cases hmag : bytesAt b 0 4 ++ 47 :: bytesAt b 8 4 = riffWaveName
    · exact ⟨.sizeMismatch b.length (dec4 b 4 + 8),
        by simp [wavBufferToRawPcm, parseWavFile, hs0, hs8, hmag, hu, hsz]⟩
    · exact ⟨.notWav (bytesAt b 0 4 ++ [47] ++ bytesAt b 8 4),
        by simp [wavBufferToRawPcm, parseWavFile, hs0, hs8, hmag]⟩
  · intro b cs dv f hparse hfmt hpf htag hch
    simp [wavBufferToRawPcm, hparse, hfmt, hpf, htag, hch]

/-- Witness for C6: a 12-byte zero buffer (bad magic), a 12-byte
`"RIFF"`/`"WAVE"` buffer recording size 100 (size mismatch), and a
36-byte WAVE file whose `fmt` chunk declares 1 channel. -/
theorem c6_wav_errors_witness :
    wavBufferToRawPcm [0, 0, 0, 0, 0, 0, 0, 0, 0, 0, 0, 0] =
        .error (.wav (.notWav [0, 0, 0, 0, 47, 0, 0, 0, 0])) ∧
      (∃ m, wavBufferToRawPcm
          [82, 73, 70, 70, 100, 0, 0, 0, 87, 65, 86, 69] =
        .error (.wav m)) ∧
      wavBufferToRawPcm
          [82, 73, 70, 70, 28, 0, 0, 0, 87, 65, 86, 69, 102, 109, 116, 32,
            16, 0, 0, 0, 1, 0, 1, 0, 68, 172, 0, 0, 136, 88, 1, 0, 2, 0,
            16, 0] =
        .error (.wav (.badChannels 1)) := by
  refine ⟨?_, ?_, ?_⟩
  · have h := c6_wav_errors_amended.1 [0, 0, 0, 0, 0, 0, 0, 0, 0, 0, 0, 0]
      (by decide) (by decide)
    rw [show bytesAt [0, 0, 0, 0, 0, 0, 0, 0, 0, 0, 0, 0] 0 4 ++ [47] ++
        bytesAt [0, 0, 0, 0, 0, 0, 0, 0, 0, 0, 0, 0] 8 4 =
        [0, 0, 0, 0, 47, 0, 0, 0, 0] from by decide] at h
    exact h
  · exact c6_wav_errors_amended.2.1
      [82, 73, 70, 70, 100, 0, 0, 0, 87, 65, 86, 69] (by decide) (by decide)
  · have hwEnd : walkChunks
        [82, 73, 70, 70, 28, 0, 0, 0, 87, 65, 86, 69, 102, 109, 116, 32,
          16, 0, 0, 0, 1, 0, 1, 0, 68, 172, 0, 0, 136, 88, 1, 0, 2, 0,
          16, 0] 36 = .ok [] := by
      rw [walkChunks.eq_def, dif_neg (by decide)]
    have hw12 : walkChunks
        [82, 73, 70, 70, 28, 0, 0, 0, 87, 65, 86, 69, 102, 109, 116, 32,
          16, 0, 0, 0, 1, 0, 1, 0, 68, 172, 0, 0, 136, 88, 1, 0, 2, 0,
          16, 0] 12 = .ok [(fmtName, ⟨20, 16⟩)] := by
      rw [walkChunks.eq_def, dif_pos (by decide)]
      simp only [show getStringE
          [82, 73, 70, 70, 28, 0, 0, 0, 87, 65, 86, 69, 102, 109, 116, 32,
            16, 0, 0, 0, 1, 0, 1, 0, 68, 172, 0, 0, 136, 88, 1, 0, 2, 0,
            16, 0] 12 4 = .ok [102, 109, 116, 32] from by decide,
        show getU32le
          [82, 73, 70, 70, 28, 0, 0, 0, 87, 65, 86, 69, 102, 109, 116, 32,
            16, 0, 0, 0, 1, 0, 1, 0, 68, 172, 0, 0, 136, 88, 1, 0, 2, 0,
            16, 0] (12 + 4) = .ok 16 from by decide,
        show mkDView
          [82, 73, 70, 70, 28, 0, 0, 0, 87, 65, 86, 69, 102, 109, 116, 32,
            16, 0, 0, 0, 1, 0, 1, 0, 68, 172, 0, 0, 136, 88, 1, 0, 2, 0,
            16, 0] (12 + 8) 16 = .ok ⟨20, 16⟩ from by decide,
        show (12 : Nat) + (16 + 8) = 36 from by norm_num, hwEnd]
      decide
    have hparse : parseWavFile
        [82, 73, 70, 70, 28, 0, 0, 0, 87, 65, 86, 69, 102, 109, 116, 32,
          16, 0, 0, 0, 1, 0, 1, 0, 68, 172, 0, 0, 136, 88, 1, 0, 2, 0,
          16, 0] = .ok [(fmtName, ⟨20, 16⟩)] := by
      unfold parseWavFile
      simp only [show getStringE
          [82, 73, 70, 70, 28, 0, 0, 0, 87, 65, 86, 69, 102, 109, 116, 32,
            16, 0, 0, 0, 1, 0, 1, 0, 68, 172, 0, 0, 136, 88, 1, 0, 2, 0,
            16, 0] 0 4 = .ok [82, 73, 70, 70] from by decide,
        show getStringE
          [82, 73, 70, 70, 28, 0, 0, 0, 87, 65, 86, 69, 102, 109, 116, 32,
            16, 0, 0, 0, 1, 0, 1, 0, 68, 172, 0, 0, 136, 88, 1, 0, 2, 0,
            16, 0] 8 4 = .ok [87, 65, 86, 69] from by decide,
        show getU32le
          [82, 73, 70, 70, 28, 0, 0, 0, 87, 65, 86, 69, 102, 109, 116, 32,
            16, 0, 0, 0, 1, 0, 1, 0, 68, 172, 0, 0, 136, 88, 1, 0, 2, 0,
            16, 0] 4 = .ok 28 from by decide]
      rw [if_neg (by decide), if_neg (by decide)]
      exact hw12
    exact c6_wav_errors_amended.2.2 _ [(fmtName, ⟨20, 16⟩)] ⟨20, 16⟩
      ⟨1, 1, 44100, 88200, 2, 16⟩ hparse (by decide) (by decide) rfl rfl

/-- C1: for every valid 16-bit stereo PCM sample sequence `p` (sample
values below 2^16, and small enough that the RIFF size field can record
the file size in its uint32), `wavBufferToRawPcm (rawPcmToWav p)`
succeeds and yields `p` element-wise. -/
theorem c1_wav_roundtrip (p : List Nat) (hv : ∀ v ∈ p, v < 65536)
    (hsz : 36 + 2 * p.length < 4294967296) :
    wavBufferToRawPcm (rawPcmToWav p) = .ok p := by
  rw [rawPcmToWav_decomp]
  have hlen : (wavHdrBytes p.length ++ u16leBytes p).length =
      44 + 2 * p.length := by
    rw [List.length_append, u16leBytes_length]
    rfl
  have hbyt0 : bytesAt (wavHdrBytes p.length ++ u16leBytes p) 0 4 =
    [82, 73, 70, 70] := rfl
  have hbyt8 : bytesAt (wavHdrBytes p.length ++ u16leBytes p) 8 4 =
    [87, 65, 86, 69] := rfl
  have hbyt12 : bytesAt (wavHdrBytes p.length ++ u16leBytes p) 12 4 =
    [102, 109, 116, 32] := rfl
  have hbyt36 : bytesAt (wavHdrBytes p.length ++ u16leBytes p) 36 4 =
    [100, 97, 116, 97] := rfl
  have hdec4 : dec4 (wavHdrBytes p.length ++ u16leBytes p) 4 =
      36 + 2 * p.length := by
    have h4 : byteAt (wavHdrBytes p.length ++ u16leBytes p) 4 =
      (44 + 2 * p.length - 8) % 256 := rfl
    have h5 : byteAt (wavHdrBytes p.length ++ u16leBytes p) (4 + 1) =
      (44 + 2 * p.length - 8) / 256 % 256 := rfl
    have h6 : byteAt (wavHdrBytes p.length ++ u16leBytes p) (4 + 2) =
      (44 + 2 * p.length - 8) / 65536 % 256 := rfl
    have h7 : byteAt (wavHdrBytes p.length ++ u16leBytes p) (4 + 3) =
      (44 + 2 * p.length - 8) / 16777216 % 256 := rfl
    unfold dec4
    rw [h4, h5, h6, h7]
    omega
  have hdec40 : dec4 (wavHdrBytes p.length ++ u16leBytes p) (36 + 4) =
      2 * p.length := by
    have h0 : byteAt (wavHdrBytes p.length ++ u16leBytes p) (36 + 4) =
      2 * p.length % 256 := rfl
    have h1 : byteAt (wavHdrBytes p.length ++ u16leBytes p) (36 + 4 + 1) =
      2 * p.length / 256 % 256 := rfl
    have h2 : byteAt (wavHdrBytes p.length ++ u16leBytes p) (36 + 4 + 2) =
      2 * p.length / 65536 % 256 := rfl
    have h3 : byteAt (wavHdrBytes p.length ++ u16leBytes p) (36 + 4 + 3) =
      2 * p.length / 16777216 % 256 := rfl
    unfold dec4
    rw [h0, h1, h2, h3]
    omega
  have hs0 : getStringE (wavHdrBytes p.length ++ u16leBytes p) 0 4 =
      .ok [82, 73, 70, 70] := by
    unfold getStringE
    rw [if_pos (by omega), hbyt0]
  have hs8 : getStringE (wavHdrBytes p.length ++ u16leBytes p) 8 4 =
      .ok [87, 65, 86, 69] := by
    unfold getStringE
    rw [if_pos (by omega), hbyt8]
  have hs12 : getStringE (wavHdrBytes p.length ++ u16leBytes p) 12 4 =
      .ok [102, 109, 116, 32] := by
    unfold getStringE
    rw [if_pos (by omega), hbyt12]
  have hs36 : getStringE (wavHdrBytes p.length ++ u16leBytes p) 36 4 =
      .ok [100, 97, 116, 97] := by
    unfold getStringE
    rw [if_pos (by omega), hbyt36]
  have hu4 : getU32le (wavHdrBytes p.length ++ u16leBytes p) 4 =
      .ok (36 + 2 * p.length) := by
    unfold getU32le
    rw [if_pos (by omega), hdec4]
  have hu16 : getU32le (wavHdrBytes p.length ++ u16leBytes p) (12 + 4) =
      .ok 16 := by
    unfold getU32le
    rw [if_pos (by omega)]
    rfl
  have hu40 : getU32le (wavHdrBytes p.length ++ u16leBytes p) (36 + 4) =
      .ok (2 * p.length) := by
    unfold getU32le
    rw [if_pos (by omega), hdec40]
  have hmkd20 : mkDView (wavHdrBytes p.length ++ u16leBytes p) (12 + 8) 16 =
      .ok ⟨20, 16⟩ := by
    unfold mkDView
    rw [if_pos (by omega)]
  have hmkd44 : mkDView (wavHdrBytes p.length ++ u16leBytes p) (36 + 8)
      (2 * p.length) = .ok ⟨44, 2 * p.length⟩ := by
    unfold mkDView
    rw [if_pos (by omega)]
  have hwEnd : walkChunks (wavHdrBytes p.length ++ u16leBytes p)
      (44 + 2 * p.length) = .ok [] := by
    rw [walkChunks.eq_def, dif_neg (by omega)]
  have hw36 : walkChunks (wavHdrBytes p.length ++ u16leBytes p) 36 =
      .ok [(dataName, ⟨44, 2 * p.length⟩)] := by
    rw [walkChunks.eq_def, dif_pos (by omega)]
    simp only [hs36, hu40, hmkd44]
    rw [show 36 + (2 * p.length + 8) = 44 + 2 * p.length from by omega, hwEnd]
    rfl
  have hw12 : walkChunks (wavHdrBytes p.length ++ u16leBytes p) 12 =
      .ok [(fmtName, ⟨20, 16⟩), (dataName, ⟨44, 2 * p.length⟩)] := by
    rw [walkChunks.eq_def, dif_pos (by omega)]
    simp only [hs12, hu16, hmkd20]
    rw [show (12 : Nat) + (16 + 8) = 36 from by norm_num, hw36]
    rfl
  have hparse : parseWavFile (wavHdrBytes p.length ++ u16leBytes p) =
      .ok [(fmtName, ⟨20, 16⟩), (dataName, ⟨44, 2 * p.length⟩)] := by
    unfold parseWavFile
    simp only [hs0, hs8]
    rw [if_neg (by decide)]
    simp only [hu4]
    rw [if_neg (by omega)]
    exact hw12
  have hlookf : lookupChunk fmtName
      [(fmtName, ⟨20, 16⟩), (dataName, ⟨44, 2 * p.length⟩)] =
      some ⟨20, 16⟩ := by
    simp [lookupChunk, fmtName, dataName]
  have hlookd : lookupChunk dataName
      [(fmtName, ⟨20, 16⟩), (dataName, ⟨44, 2 * p.length⟩)] =
      some ⟨44, 2 * p.length⟩ := by
    simp [lookupChunk, fmtName, dataName]
  have hpfmt : parseFMT (wavHdrBytes p.length ++ u16leBytes p) ⟨20, 16⟩ =
      .ok ⟨1, 2, 44100, 176400, 4, 16⟩ := by
    have d0 : dvGetU16 (wavHdrBytes p.length ++ u16leBytes p) ⟨20, 16⟩ 0 =
      .ok 1 := rfl
    have d2 : dvGetU16 (wavHdrBytes p.length ++ u16leBytes p) ⟨20, 16⟩ 2 =
      .ok 2 := rfl
    have d4 : dvGetU32 (wavHdrBytes p.length ++ u16leBytes p) ⟨20, 16⟩ 4 =
        .ok 44100 := by
      have h0 : byteAt (wavHdrBytes p.length ++ u16leBytes p) (20 + 4) =
        68 := rfl
      have h1 : byteAt (wavHdrBytes p.length ++ u16leBytes p) (20 + 4 + 1) =
        172 := rfl
      have h2 : byteAt (wavHdrBytes p.length ++ u16leBytes p) (20 + 4 + 2) =
        0 := rfl
      have h3 : byteAt (wavHdrBytes p.length ++ u16leBytes p) (20 + 4 + 3) =
        0 := rfl
      unfold dvGetU32
      rw [if_pos (by norm_num)]
      unfold dec4
      rw [h0, h1, h2, h3]
    have d8 : dvGetU32 (wavHdrBytes p.length ++ u16leBytes p) ⟨20, 16⟩ 8 =
        .ok 176400 := by
      have h0 : byteAt (wavHdrBytes p.length ++ u16leBytes p) (20 + 8) =
        16 := rfl
      have h1 : byteAt (wavHdrBytes p.length ++ u16leBytes p) (20 + 8 + 1) =
        177 := rfl
      have h2 : byteAt (wavHdrBytes p.length ++ u16leBytes p) (20 + 8 + 2) =
        2 := rfl
      have h3 : byteAt (wavHdrBytes p.length ++ u16leBytes p) (20 + 8 + 3) =
        0 := rfl
      unfold dvGetU32
      rw [if_pos (by norm_num)]
      unfold dec4
      rw [h0, h1, h2, h3]
    have d12 : dvGetU16 (wavHdrBytes p.length ++ u16leBytes p) ⟨20, 16⟩ 12 =
      .ok 4 := rfl
    have d14 : dvGetU16 (wavHdrBytes p.length ++ u16leBytes p) ⟨20, 16⟩ 14 =
      .ok 16 := rfl
    unfold parseFMT
    simp only [d0, d2, d4, d8, d12, d14]
  have hview : mkU16View (wavHdrBytes p.length ++ u16leBytes p) 44
      (2 * p.length * 8 / 16) = .ok p := by
    unfold mkU16View
    rw [if_pos ⟨by norm_num, by omega⟩]
    rw [show 2 * p.length * 8 / 16 = p.length from by omega]
    rw [readU16s_drop _ _ _ (by omega)]
    rw [show (wavHdrBytes p.length ++ u16leBytes p).drop 44 = u16leBytes p
      from rfl]
    rw [readU16s_u16leBytes p hv]
  unfold wavBufferToRawPcm
  rw [hparse]
  simp only [hlookf, hpfmt, hlookd]
  rw [if_neg (by decide), if_neg (by decide), if_neg (by decide),
    if_neg (by decide)]
  exact hview

/-- Witness for C1 at `p = [5, 6]`. -/
theorem c1_wav_roundtrip_witness :
    (∀ v ∈ [5, 6], v < 65536) ∧
      wavBufferToRawPcm (rawPcmToWav [5, 6]) = .ok [5, 6] :=
  ⟨by decide, c1_wav_roundtrip [5, 6] (by decide) (by decide)⟩

end Wav2Msu
